import Mathlib

/-!
Formal model (shallow embedding) of the RagLlmBot Obsidian plugin, `src/main.ts`.

The embedding covers the algorithmic core of the plugin:
  * `chunkText`              (sliding-window chunker, main.ts lines 336-345)
  * the embedding-response normalisation and validation
                             (main.ts lines 108-120 and 125-133)
  * `checkTenant` / `checkDatabase` / `checkCollection`
                             (get-or-create provisioning, main.ts lines 233-300)
  * `upsertChunksToCollection` (batch validation and upsert, main.ts lines 302-334)
  * the streaming newline-delimited JSON decoder (main.ts lines 171-189)

JavaScript dynamic values that flow through the JSON boundary are modelled by
the inductive type `JValue`; numbers are modelled by `Int` (only the predicate
"typeof n is a number" matters to the program, never arithmetic on the values).
Thrown JavaScript exceptions are modelled by `Except String`; the `String` is
the message.  Network effects are modelled by passing the response of each
`fetch` in explicitly and returning the number of network calls performed.
-/

/-- A JavaScript/JSON value as seen by the plugin after `JSON.parse` or before
`JSON.stringify`.  `jsUndefined` models the JavaScript `jsUndefined value (JS undefined)` produced by a
missing property or out-of-range index. -/
inductive JValue where
  | jsUndefined : JValue
  | null : JValue
  | bool : Bool → JValue
  | num : Int → JValue
  | str : String → JValue
  | arr : List JValue → JValue
  | obj : List (String × JValue) → JValue

/-- `Array.isArray(v)`. -/
def isArray : JValue → Bool
  | .arr _ => true
  | _ => false

/-- `typeof v === "number"`. -/
def isNum : JValue → Bool
  | .num _ => true
  | _ => false

/-- JavaScript truthiness of a value, as used by `if (data.response)`. -/
def truthy : JValue → Bool
  | .jsUndefined => false
  | .null => false
  | .bool b => b
  | .num x => !(x == 0)
  | .str s => !s.isEmpty
  | .arr _ => true
  | .obj _ => true

/-- Property access `v[k]` on a parsed JSON value.  On `null` and `jsUndefined value (JS undefined)`
it throws a `TypeError`; on an object it returns the first binding of the key
or `jsUndefined value (JS undefined)`; on every other value it returns `jsUndefined value (JS undefined)` (no plugin code
reads a named property off an array, a number or a string). -/
def getField (v : JValue) (k : String) : Except String JValue :=
  match v with
  | .jsUndefined => .error "TypeError"
  | .null => .error "TypeError"
  | .obj fs =>
      match fs.find? (fun p => p.1 == k) with
      | some p => .ok p.2
      | none => .ok .jsUndefined
  | _ => .ok .jsUndefined

/-- Index access `v[0]`.  On `null` and `jsUndefined value (JS undefined)` it throws a `TypeError`;
on an array it returns the first element or `jsUndefined value (JS undefined)`; on a string it
returns the one-character string (never an array); otherwise `jsUndefined value (JS undefined)`. -/
def jsIndexZero : JValue → Except String JValue
  | .jsUndefined => .error "TypeError"
  | .null => .error "TypeError"
  | .arr xs => .ok (xs.headD .jsUndefined)
  | .str s => .ok (if s.isEmpty then .jsUndefined else .str (s.take 1))
  | v => .ok (match v with | _ => .jsUndefined)

/-- `haystack.includes(needle)` on JavaScript strings (contiguous substring). -/
def includes (hay needle : String) : Bool :=
  go hay.toList needle.toList
where
  go : List Char → List Char → Bool
    | [], n => n.isEmpty
    | h :: t, n => List.isPrefixOf n (h :: t) || go t n

/-! ## Chunker (`chunkText`, main.ts lines 336-345)

```js
chunkText(text, size = 500, overlap = 50) {
  const chunks = [];
  let start = 0;
  while (start < text.length) {
    const end = Math.min(start + size, text.length);
    chunks.push(text.slice(start, end));
    start += size - overlap;
  }
  return chunks;
}
```

The loop is transcribed twice: `chunkTextFuel` is a fuel-indexed transcription
that is total even for parameters on which the JavaScript loop does not
terminate (`none` means the loop is still running after the given number of
iterations), and `chunkText` is the same loop for the parameters
`overlap < size` on which it terminates, proved terminating by the measure
`text.length - start`.  Text is a list of characters; `text.slice(start, end)`
with `0 <= start <= end` is `(text.drop start).take (end - start)`. -/

/-- One run of the `chunkText` loop, bounded by `fuel` iterations: `none`
means the loop has not finished within `fuel` iterations.  `start` stays a
natural number because the theorems below only instantiate `overlap = size`,
where `start += size - overlap` adds zero, exactly as in JavaScript. -/
def chunkTextFuel (text : List Char) (size overlap : Nat) : Nat → Nat → Option (List (List Char))
  | 0, _ => none
  | fuel + 1, start =>
      if start < text.length then
        let e := min (start + size) text.length
        match chunkTextFuel text size overlap fuel (start + (size - overlap)) with
        | none => none
        | some rest => some ((text.drop start).take (e - start) :: rest)
      else some []

/-- The `chunkText` loop from position `start`, for the terminating parameter
range `overlap < size`. -/
def chunkTextGo (text : List Char) (size overlap : Nat) (hov : overlap < size)
    (start : Nat) : List (List Char) :=
  if _h : start < text.length then
    (text.drop start).take (min (start + size) text.length - start)
      :: chunkTextGo text size overlap hov (start + (size - overlap))
  else []
termination_by text.length - start
decreasing_by
  omega

/-- `chunkText(text, size, overlap)` for `overlap < size`. -/
def chunkText (text : List Char) (size overlap : Nat) (hov : overlap < size) :
    List (List Char) :=
  chunkTextGo text size overlap hov 0

/-- Claim C1: for `overlap >= size` the specification requires `chunkText` to
fail fast with an `InvalidConfiguration` error.  The source performs no
validation at all: on the failing input `text = "a"`, `size = 1`,
`overlap = 1`, the loop body never advances `start`, so for every iteration
bound the loop is still running — the call neither fails nor returns. -/
theorem chunkText_overlap_eq_size_never_terminates :
    ∀ fuel : Nat, chunkTextFuel "a".toList 1 1 fuel 0 = none := by
  intro fuel
  induction fuel with
  | zero => rfl
  | succ n ih =>
      simp only [chunkTextFuel, ih]
      rfl

/-- Every position `p` of the text with `start <= p` is covered by some chunk
produced by the loop when it is entered at `start`: the window starting at
`start` covers `[start, start + size)` and the next window starts at
`start + (size - overlap) <= start + size`, so the windows leave no gap. -/
theorem chunkTextGo_covers (text : List Char) (size overlap : Nat) (hov : overlap < size)
    (start p : Nat) (hsp : start ≤ p) (hp : p < text.length) :
    ∃ c ∈ chunkTextGo text size overlap hov start, text.get ⟨p, hp⟩ ∈ c := by
  have hlt : start < text.length := lt_of_le_of_lt hsp hp
  rw [chunkTextGo, dif_pos hlt]
  by_cases hcase : p < start + size
  · refine ⟨(text.drop start).take (min (start + size) text.length - start),
      List.mem_cons_self _ _, ?_⟩
    have hj : p - start < ((text.drop start).take (min (start + size) text.length - start)).length := by
      simp only [List.length_take, List.length_drop]
      omega
    have hget : ((text.drop start).take (min (start + size) text.length - start))[p - start] =
        text[p] := by
      rw [List.getElem_take, List.getElem_drop]
      congr 1
      omega
    have := List.getElem_mem hj
    rw [hget] at this
    simpa [List.get_eq_getElem] using this
  · have hstep : start + (size - overlap) ≤ p := by omega
    obtain ⟨c, hc, hm⟩ :=
      chunkTextGo_covers text size overlap hov (start + (size - overlap)) p hstep hp
    exact ⟨c, List.mem_cons_of_mem _ hc, hm⟩
termination_by text.length - start
decreasing_by
  omega

/-- Claim C8: for every text and every valid pair `overlap < size` (which
forces `0 < size`), every character of the text appears in at least one chunk
returned by `chunkText`: window `i` spans `[start, start + size)` clipped to
the text length and the next start is `start + (size - overlap)`, leaving no
coverage gap. -/
theorem chunkText_full_coverage (text : List Char) (size overlap : Nat)
    (hov : overlap < size) (p : Nat) (hp : p < text.length) :
    ∃ c ∈ chunkText text size overlap hov, text.get ⟨p, hp⟩ ∈ c :=
  chunkTextGo_covers text size overlap hov 0 p (Nat.zero_le p) hp

/-- Witness for C8: in `chunkText "abcd" 3 1` the character at position 3
appears in some chunk. -/
theorem chunkText_full_coverage_witness :
    ∃ c ∈ chunkText "abcd".toList 3 1 (by decide),
      ("abcd".toList).get ⟨3, by decide⟩ ∈ c :=
  chunkText_full_coverage "abcd".toList 3 1 (by decide) 3 (by decide)

/-- Claim C9: for every valid pair `overlap < size`, chunking the empty text
yields the empty sequence, and chunking a non-empty text yields at least one
chunk. -/
theorem chunkText_empty_and_nonempty (text : List Char) (size overlap : Nat)
    (hov : overlap < size) :
    chunkText [] size overlap hov = [] ∧
      (text ≠ [] → chunkText text size overlap hov ≠ []) := by
  constructor
  · rw [chunkText, chunkTextGo]
    simp
  · intro hne
    rw [chunkText, chunkTextGo]
    have : 0 < text.length := List.length_pos.mpr hne
    rw [dif_pos this]
    exact List.cons_ne_nil _ _

/-- Witness for C9: chunking the empty text with `size = 2, overlap = 1`
yields `[]`, and chunking `"a"` yields a non-empty sequence. -/
theorem chunkText_empty_and_nonempty_witness :
    chunkText [] 2 1 (by decide) = [] ∧ chunkText "a".toList 2 1 (by decide) ≠ [] :=
  ⟨(chunkText_empty_and_nonempty "a".toList 2 1 (by decide)).1,
   (chunkText_empty_and_nonempty "a".toList 2 1 (by decide)).2 (by decide)⟩

/-! ## Vector-store provisioning (main.ts lines 233-300)

Each `check*` function is transcribed over the explicit result of its
`chromaApi` fetch (`Except String` with the thrown message in the error case,
for example `"Chroma API error (404): ..."`) and the result of the creation
call it may make.  Each returns the outcome observed by the caller together
with the number of creation calls performed.

```js
async checkTenant(tenantName) {
  try { await chromaApi("GET", ...); }
  catch (err) {
    if (err.message.includes("404")) { await chromaApi("POST", ...); }
    else { console.error(...); throw err; }
  }
}
```
-/

/-- `checkTenant` (main.ts lines 233-246): on fetch success do nothing; on a
fetch failure whose message contains `"404"` perform the creation call (whose
own outcome, success or thrown error, is what the caller sees); on any other
fetch failure rethrow it. -/
def checkTenant (fetch : Except String Unit) (create : Except String Unit) :
    Except String Unit × Nat :=
  match fetch with
  | .ok _ => (.ok (), 0)
  | .error msg =>
      if includes msg "404" then (create, 1) else (.error msg, 0)

/-- `checkDatabase` (main.ts lines 248-264): list the databases of the tenant;
if the name is absent, create it.  The whole body is wrapped in a `try` whose
`catch` only logs, so every failure (of the listing or of the creation) is
swallowed and the caller always sees a normal return. -/
def checkDatabase (dbName : String) (fetchDbs : Except String (List String))
    (create : Except String Unit) : Except String Unit × Nat :=
  match fetchDbs with
  | .error _ => (.ok (), 0)
  | .ok dbs =>
      if dbs.any (fun d => d == dbName) then (.ok (), 0)
      else
        match create with
        | .ok _ => (.ok (), 1)
        | .error _ => (.ok (), 1)

/-- A collection as returned by the Chroma listing or creation endpoint; `id`
is `none` when the response object carries no `id` field. -/
structure ChromaCollection where
  name : String
  id : Option String

/-- The outcome of one `checkCollection` run: the result seen by the caller,
whether a creation call was made, and the collection id stored into the
settings (`none` when the settings were left untouched). -/
structure CheckCollectionRun where
  result : Except String Unit
  created : Bool
  storedId : Option String

/-- `checkCollection` (main.ts lines 266-300): list the collections of the
tenant/database pair, look the name up with `find`, create the collection only
when absent, and store `collection.id` into the settings when present.  The
whole body is wrapped in a `try` whose `catch` only logs, so every failure is
swallowed and the caller always sees a normal return. -/
def checkCollection (collectionName : String)
    (fetchList : Except String (List ChromaCollection))
    (createResp : Except String ChromaCollection) : CheckCollectionRun :=
  match fetchList with
  | .error _ => ⟨.ok (), false, none⟩
  | .ok collections =>
      match collections.find? (fun c => c.name == collectionName) with
      | some c =>
          match c.id with
          | some i => ⟨.ok (), false, some i⟩
          | none => ⟨.ok (), false, none⟩
      | none =>
          match createResp with
          | .error _ => ⟨.ok (), true, none⟩
          | .ok c =>
              match c.id with
              | some i => ⟨.ok (), true, some i⟩
              | none => ⟨.ok (), true, none⟩

/-- Claim C2, counterexample: a `checkDatabase` whose listing fetch fails with
a 500-class error returns normally with no creation call — the failure does
not propagate to the caller at all, contradicting the claim that any
non-not-found failure propagates as a `ProvisioningError`. -/
theorem checkDatabase_swallows_error_counterexample :
    checkDatabase "obsidian_db" (.error "Chroma API error (500): boom") (.ok ()) =
      (.ok (), 0) := rfl

/-- Claim C2 as amended: `checkTenant` alone behaves as the claim states — a
fetch failure whose message does not contain `"404"` propagates to the caller
and triggers no creation, while a `"404"` failure triggers exactly one
creation call.  `checkDatabase` and `checkCollection` instead swallow every
fetch failure (logging only) and return normally without creating anything:
for them no failure ever propagates. -/
theorem ensure_ops_error_propagation_amended
    (msg msg404 : String) (create : Except String Unit)
    (dbName collName : String) (dbCreate : Except String Unit)
    (collCreate : Except String ChromaCollection)
    (hmsg : includes msg "404" = false)
    (hmsg404 : includes msg404 "404" = true) :
    checkTenant (.error msg) create = (.error msg, 0) ∧
    checkTenant (.error msg404) create = (create, 1) ∧
    checkDatabase dbName (.error msg) dbCreate = (.ok (), 0) ∧
    checkCollection collName (.error msg) collCreate =
      ⟨.ok (), false, none⟩ := by
  refine ⟨?_, ?_, rfl, rfl⟩
  · simp [checkTenant, hmsg]
  · simp [checkTenant, hmsg404]

/-- Witness for the amended C2, at the messages
`"Chroma API error (500): boom"` and `"Chroma API error (404): missing"`. -/
theorem ensure_ops_error_propagation_amended_witness :
    checkTenant (.error "Chroma API error (500): boom") (.ok ()) =
        (.error "Chroma API error (500): boom", 0) ∧
    checkTenant (.error "Chroma API error (404): missing") (.ok ()) = (.ok (), 1) ∧
    checkDatabase "obsidian_db" (.error "Chroma API error (500): boom") (.ok ()) =
        (.ok (), 0) ∧
    checkCollection "obsidian_collection" (.error "Chroma API error (500): boom")
        (.ok ⟨"obsidian_collection", some "cid"⟩) = ⟨.ok (), false, none⟩ :=
  ensure_ops_error_propagation_amended
    "Chroma API error (500): boom" "Chroma API error (404): missing" (.ok ())
    "obsidian_db" "obsidian_collection" (.ok ())
    (.ok ⟨"obsidian_collection", some "cid"⟩) (by decide) (by decide)

/-! ## Idempotency of collection provisioning (claim C4)

To state the two-call property the Chroma service at the other end of the two
network calls is modelled from the external-interface section of the spec:
`GET .../collections` returns the current listing, and
`POST .../collections {name}` appends a collection carrying a service-chosen
fresh id and returns it.  `checkCollection` itself is the transcription
above; only the two `chromaApi` calls are instantiated with this service. -/

/-- One `checkCollection` run against a modelled Chroma service whose listing
is `cols` and which would assign `freshId` to a newly created collection.
Returns the listing after the run, the collection id the settings hold after
the run (`stored` is the value they held before), and the number of creation
calls performed. -/
def checkCollectionOnServer (cols : List ChromaCollection) (stored : String)
    (collectionName freshId : String) : List ChromaCollection × String × Nat :=
  let run := checkCollection collectionName (.ok cols)
    (.ok ⟨collectionName, some freshId⟩)
  (if run.created then cols ++ [⟨collectionName, some freshId⟩] else cols,
   (run.storedId).getD stored,
   if run.created then 1 else 0)

/-- Claim C4: running `checkCollection` twice with the same
tenant/database/collection arguments (the tenant and database only select the
listing `cols`) stores the same collection id both times and performs at most
one creation call in total: the listing is consulted first, an existing
collection's id is reused, and creation happens only when the name is absent. -/
theorem ensureCollection_idempotent (cols : List ChromaCollection)
    (stored collectionName f1 f2 : String) :
    let r1 := checkCollectionOnServer cols stored collectionName f1
    let r2 := checkCollectionOnServer r1.1 r1.2.1 collectionName f2
    r2.2.1 = r1.2.1 ∧ r1.2.2 + r2.2.2 ≤ 1 := by
  cases hfind : cols.find? (fun c => c.name == collectionName) with
  | some c =>
      cases hid : c.id with
      | some i => simp [checkCollectionOnServer, checkCollection, hfind, hid]
      | none => simp [checkCollectionOnServer, checkCollection, hfind, hid]
  | none =>
      have hfind2 :
          (cols ++ [({ name := collectionName, id := some f1 } : ChromaCollection)]).find?
            (fun c => c.name == collectionName) =
            some { name := collectionName, id := some f1 } := by
        rw [List.find?_append, hfind]
        simp
      simp [checkCollectionOnServer, checkCollection, hfind, hfind2]

/-! ## Embedding-response normalisation and validation (main.ts 108-120, 125-133)

```js
const embedding = Array.isArray(embeddingResponse.embeddings[0])
  ? embeddingResponse.embeddings[0] : embeddingResponse.embeddings;
if (!Array.isArray(embedding) || embedding.length === 0
    || !embedding.every(n => typeof n === "number")) {
  throw new Error(`Invalid embedding for chunk ${i}`);
}
```

The user-prompt embedding (lines 125-133) runs only the first statement: the
same normalisation with no validation.  The argument `e` below is the value of
the `embeddings` field of the parsed response; `JValue.jsUndefined` models a
response in which the field is absent. -/

/-- The shared normalisation: `Array.isArray(e[0]) ? e[0] : e`.  An error from
the index access (`e` null or absent) propagates. -/
def normalizeEmbedding (e : JValue) : Except String JValue :=
  match jsIndexZero e with
  | .error msg => .error msg
  | .ok e0 => .ok (if isArray e0 then e0 else e)

/-- The validation predicate applied to a normalised embedding (and to each
chunk embedding before upsert): a non-empty array of numbers. -/
def isValidEmbeddingArr : JValue → Bool
  | .arr xs => !xs.isEmpty && xs.all isNum
  | _ => false

/-- The chunk-embedding path (main.ts lines 108-120): normalise, then throw
`Invalid embedding for chunk` unless the result is a non-empty numeric array. -/
def chunkEmbedding (e : JValue) : Except String JValue :=
  match normalizeEmbedding e with
  | .error msg => .error msg
  | .ok emb =>
      if isValidEmbeddingArr emb then .ok emb
      else .error "Invalid embedding for chunk"

/-- The user-prompt (query) embedding path (main.ts lines 125-133): the same
normalisation, with no validation at all. -/
def queryEmbedding (e : JValue) : Except String JValue :=
  normalizeEmbedding e

/-- Claim C3, counterexample: the query-embedding path accepts an empty
vector without any error, contradicting the claim that every embedding
request fails with an `EmbeddingError` when the resulting vector is empty. -/
theorem queryEmbedding_accepts_empty_counterexample :
    queryEmbedding (.arr []) = .ok (.arr []) := rfl

/-- Claim C3 as amended: both paths normalise the response shape the same way
— a flat numeric vector is passed through and a vector nested as
`embeddings[0]` is unwrapped, so the caller sees a single flat numeric
sequence either way — and an absent `embeddings` field raises an error in
both paths.  But only the chunk-embedding path validates: it fails whenever
the normalised vector is not a non-empty array of numbers, while the
query-embedding path returns whatever normalisation produced, with empty or
non-numeric vectors passing through silently. -/
theorem embedding_normalization_validation_amended
    (xs : List JValue) (e emb : JValue)
    (hne : xs ≠ []) (hnum : xs.all isNum = true)
    (hnorm : normalizeEmbedding e = .ok emb)
    (hbad : isValidEmbeddingArr emb = false) :
    chunkEmbedding (.arr xs) = .ok (.arr xs) ∧
    chunkEmbedding (.arr [.arr xs]) = .ok (.arr xs) ∧
    queryEmbedding (.arr xs) = .ok (.arr xs) ∧
    queryEmbedding (.arr [.arr xs]) = .ok (.arr xs) ∧
    chunkEmbedding .jsUndefined = .error "TypeError" ∧
    queryEmbedding .jsUndefined = .error "TypeError" ∧
    chunkEmbedding e = .error "Invalid embedding for chunk" ∧
    queryEmbedding e = .ok emb := by
  have hvalid : isValidEmbeddingArr (.arr xs) = true := by
    cases xs with
    | nil => exact absurd rfl hne
    | cons y ys => simp_all [isValidEmbeddingArr]
  have hnormflat : normalizeEmbedding (.arr xs) = .ok (.arr xs) := by
    cases xs with
    | nil => exact absurd rfl hne
    | cons y ys =>
        have : isNum y = true := by simp_all
        cases y <;> simp_all [normalizeEmbedding, jsIndexZero, isArray, isNum]
  have hnormnested : normalizeEmbedding (.arr [.arr xs]) = .ok (.arr xs) := by
    simp [normalizeEmbedding, jsIndexZero, isArray]
  refine ⟨?_, ?_, ?_, ?_, rfl, rfl, ?_, ?_⟩
  · simp [chunkEmbedding, hnormflat, hvalid]
  · simp [chunkEmbedding, hnormnested, hvalid]
  · simp [queryEmbedding, hnormflat]
  · simp [queryEmbedding, hnormnested]
  · simp [chunkEmbedding, hnorm, hbad]
  · simp [queryEmbedding, hnorm]

/-- Witness for the amended C3 at `xs = [num 1]` and the invalid response
`e = arr []` (normalised to itself, an empty vector). -/
theorem embedding_normalization_validation_amended_witness :
    chunkEmbedding (.arr [.num 1]) = .ok (.arr [.num 1]) ∧
    chunkEmbedding (.arr [.arr [.num 1]]) = .ok (.arr [.num 1]) ∧
    queryEmbedding (.arr [.num 1]) = .ok (.arr [.num 1]) ∧
    queryEmbedding (.arr [.arr [.num 1]]) = .ok (.arr [.num 1]) ∧
    chunkEmbedding .jsUndefined = .error "TypeError" ∧
    queryEmbedding .jsUndefined = .error "TypeError" ∧
    chunkEmbedding (.arr []) = .error "Invalid embedding for chunk" ∧
    queryEmbedding (.arr []) = .ok (.arr []) :=
  embedding_normalization_validation_amended [.num 1] (.arr []) (.arr [])
    (by simp) (by simp [isNum]) rfl rfl

/-! ## Batch upsert (`upsertChunksToCollection`, main.ts lines 302-334)

```js
async upsertChunksToCollection(tenantName, dbName, collectionName, collectionId, chunks) {
  if (!chunks || chunks.length === 0) return;
  for (const c of chunks) {
    if (!Array.isArray(c.embedding) || c.embedding.length === 0
        || !c.embedding.every(n => typeof n === "number")) {
      throw new Error(`Invalid embedding for chunk ${c.id}`);
    }
  }
  const payload = { documents..., embeddings..., ids..., metadatas..., uris... };
  await this.chromaApi(..., `/collections/${collectionId}/add`, payload);
  ...
}
```

The embedding is held as a `JValue` so that a missing (`jsUndefined value (JS undefined)`) embedding
is representable; the validation predicate is the same `isValidEmbeddingArr`
as in the embedding loop.  The returned `Nat` counts the network calls made
(the single `/add` POST on success, zero otherwise). -/

/-- One chunk object as built by the indexing loop. -/
structure ChunkObj where
  id : String
  text : String
  embedding : JValue

/-- The validation `for` loop: throws at the first chunk whose embedding is
not a non-empty numeric array. -/
def validateChunks : List ChunkObj → Except String Unit
  | [] => .ok ()
  | c :: rest =>
      if isValidEmbeddingArr c.embedding then validateChunks rest
      else .error ("Invalid embedding for chunk " ++ c.id)

/-- `upsertChunksToCollection`: `none` models a missing (`jsUndefined value (JS undefined)` or
`null`) chunks argument.  Returns the outcome seen by the caller and the
number of network calls performed. -/
def upsertChunksToCollection (chunks : Option (List ChunkObj)) :
    Except String Unit × Nat :=
  match chunks with
  | none => (.ok (), 0)
  | some cs =>
      if cs.isEmpty then (.ok (), 0)
      else
        match validateChunks cs with
        | .error msg => (.error msg, 0)
        | .ok _ => (.ok (), 1)

/-- An invalid chunk anywhere in the list makes the validation loop throw. -/
theorem validateChunks_error_of_mem (cs : List ChunkObj) (c : ChunkObj)
    (hmem : c ∈ cs) (hbad : isValidEmbeddingArr c.embedding = false) :
    ∃ msg, validateChunks cs = .error msg := by
  induction cs with
  | nil => cases hmem
  | cons d rest ih =>
      by_cases hd : isValidEmbeddingArr d.embedding
      · rcases List.mem_cons.mp hmem with hcd | hrest
        · subst hcd
          rw [hd] at hbad
          cases hbad
        · obtain ⟨msg, hmsg⟩ := ih hrest
          exact ⟨msg, by simp [validateChunks, hd, hmsg]⟩
      · exact ⟨"Invalid embedding for chunk " ++ d.id,
          by simp [validateChunks, hd]⟩

/-- Claim C5: if any chunk of the batch has a missing, empty or non-numeric
embedding, the upsert fails with the validation error and performs zero
network calls — a single malformed chunk aborts the whole batch before
anything is written. -/
theorem upsert_invalid_embedding_rejected (cs : List ChunkObj) (c : ChunkObj)
    (hmem : c ∈ cs) (hbad : isValidEmbeddingArr c.embedding = false) :
    ∃ msg, upsertChunksToCollection (some cs) = (.error msg, 0) := by
  obtain ⟨msg, hmsg⟩ := validateChunks_error_of_mem cs c hmem hbad
  have hne : cs.isEmpty = false := by
    cases cs with
    | nil => cases hmem
    | cons d rest => rfl
  exact ⟨msg, by simp [upsertChunksToCollection, hne, hmsg]⟩

/-- Witness for C5: a batch whose second chunk carries an empty embedding is
rejected with zero network calls. -/
theorem upsert_invalid_embedding_rejected_witness :
    ∃ msg, upsertChunksToCollection
      (some [⟨"chunk_0", "good", .arr [.num 1]⟩, ⟨"chunk_1", "bad", .arr []⟩]) =
      (.error msg, 0) :=
  upsert_invalid_embedding_rejected
    [⟨"chunk_0", "good", .arr [.num 1]⟩, ⟨"chunk_1", "bad", .arr []⟩]
    ⟨"chunk_1", "bad", .arr []⟩ (by simp) (by decide)

/-- Claim C10: calling the upsert with an absent or empty chunk sequence
returns successfully, with zero network calls. -/
theorem upsert_empty_no_network :
    upsertChunksToCollection none = (.ok (), 0) ∧
    upsertChunksToCollection (some []) = (.ok (), 0) :=
  ⟨rfl, rfl⟩

/-! ## Streaming newline-delimited JSON decoder (main.ts lines 171-189)

```js
let partial = "";
while (true) {
  const { done, value } = await reader.read();
  if (done) break;
  partial += decoder.decode(value, { stream: true });
  const lines = partial.split("\n");
  partial = lines.pop();
  for (const line of lines) {
    if (!line.trim()) continue;
    try {
      const data = JSON.parse(line);
      if (data.response) { await append(newFile.path, data.response); }
    } catch (err) { console.warn("Stream parse error:", err); }
  }
}
```

The transport is modelled as the list of already-decoded text chunks the
reads deliver, a line as a list of characters, and `JSON.parse` as an
explicit parameter `pj : List Char -> Option JValue` (`none` models a thrown
parse error).  The loop-carried `partial` buffer is named `carry` here.
`split("\n")` always yields at least one piece, so it is transcribed as a
head piece plus the pieces after each newline. -/

/-- `s.split("\n")` as head piece plus remaining pieces. -/
def splitNlAux : List Char → List Char × List (List Char)
  | [] => ([], [])
  | c :: rest =>
      let (f, r) := splitNlAux rest
      if c = '\n' then ([], f :: r) else (c :: f, r)

/-- `s.split("\n")`, a non-empty list of pieces. -/
def splitNl (s : List Char) : List (List Char) :=
  ((splitNlAux s).1) :: (splitNlAux s).2

/-- Whether `!line.trim()` holds, i.e. the line trims to the empty string:
every character is whitespace.  Only the emptiness of the trimmed line is
ever consulted by the loop. -/
def trimIsEmpty (line : List Char) : Bool :=
  line.all (fun c => c = ' ' || c = '\t' || c = '\n' || c = '\r')

/-- The fragment one complete line contributes: skipped when it trims to
empty, skipped (with a logged diagnostic) when `JSON.parse` throws, skipped
when the parsed object has no truthy `response` field (a `TypeError` from the
field access on a parsed `null` is caught by the same `try`), and otherwise
exactly the value of the `response` field. -/
def lineFragment (pj : List Char → Option JValue) (line : List Char) :
    Option JValue :=
  if trimIsEmpty line then none
  else
    match pj line with
    | none => none
    | some data =>
        match getField data "response" with
        | .error _ => none
        | .ok v => if truthy v then some v else none

/-- The `for (const line of lines)` loop: fragments of the complete lines, in
order. -/
def processLines (pj : List Char → Option JValue) : List (List Char) → List JValue
  | [] => []
  | l :: rest =>
      match lineFragment pj l with
      | some v => v :: processLines pj rest
      | none => processLines pj rest

/-- One iteration of the outer read loop: append the freshly decoded text to
the carry, split on newlines, keep the last piece as the new carry, and emit
the fragments of the complete lines. -/
def processRead (pj : List Char → Option JValue) (carry chunk : List Char) :
    List JValue × List Char :=
  let parts := splitNl (carry ++ chunk)
  (processLines pj parts.dropLast, parts.getLastD [])

/-- The whole read loop: `reads` are the decoded texts the transport
delivers; at end-of-stream the remaining carry is discarded. -/
def decodeStream (pj : List Char → Option JValue) :
    List (List Char) → List Char → List JValue
  | [], _ => []
  | chunk :: rest, carry =>
      let (frags, carry2) := processRead pj carry chunk
      frags ++ decodeStream pj rest carry2

/-- The fragment sequence of a full stream, starting from the empty carry. -/
def generationFragments (pj : List Char → Option JValue)
    (reads : List (List Char)) : List JValue :=
  decodeStream pj reads []

/-- The complete JSON line `\x7b"response":"ab"\x7d`. -/
def abLine : List Char := "\x7b\"response\":\"ab\"\x7d".toList

/-- The trailing incomplete line `\x7b"respon`. -/
def abPartialTail : List Char := "\x7b\"respon".toList

/-- Claim C6: fed the text `\x7b"response":"ab"\x7d\n\x7b"respon` (a complete
line, a newline, and an incomplete trailing line) followed by end-of-stream,
the decoder yields exactly the one fragment `"ab"` and discards the trailing
remainder: the statement holds for EVERY parse function that parses the
complete line to the expected object, so the trailing piece is never even
offered to the parser as a final line. -/
theorem stream_partial_trailing_line_discarded
    (pj : List Char → Option JValue)
    (hab : pj abLine = some (.obj [("response", .str "ab")])) :
    generationFragments pj [abLine ++ '\n' :: abPartialTail] = [.str "ab"] := by
  have hsplit : splitNl (([] : List Char) ++ (abLine ++ '\n' :: abPartialTail)) =
      [abLine, abPartialTail] := by decide
  have htrim : trimIsEmpty abLine = false := by decide
  simp only [generationFragments, decodeStream, processRead, hsplit]
  simp only [List.dropLast, List.getLastD]
  simp [processLines, lineFragment, htrim, hab, getField, truthy]
  all_goals rfl

/-- Witness for C6: a concrete parse function that parses the complete line
to the expected object and rejects everything else. -/
def abParse (line : List Char) : Option JValue :=
  if line = abLine then some (.obj [("response", .str "ab")]) else none

/-- Witness for C6, instantiating the theorem at `abParse`. -/
theorem stream_partial_trailing_line_discarded_witness :
    generationFragments abParse [abLine ++ '\n' :: abPartialTail] = [.str "ab"] :=
  stream_partial_trailing_line_discarded abParse rfl

/-- The line loop is a stateless left-to-right pass, so it distributes over
concatenation of the line list. -/
theorem processLines_append (pj : List Char → Option JValue)
    (a b : List (List Char)) :
    processLines pj (a ++ b) = processLines pj a ++ processLines pj b := by
  induction a with
  | nil => rfl
  | cons l rest ih =>
      simp only [List.cons_append, processLines, ih]
      cases lineFragment pj l <;> simp [ih]

/-- A line on which `JSON.parse` throws contributes no fragment. -/
theorem lineFragment_none_of_parse_error (pj : List Char → Option JValue)
    (bad : List Char) (hbad : pj bad = none) :
    lineFragment pj bad = none := by
  unfold lineFragment
  cases htrim : trimIsEmpty bad <;> simp [hbad]

/-- Claim C7: wherever a complete line that fails to parse occurs among the
lines of the stream, it is non-fatal: the loop continues past it, and every
subsequent line that parses to an object with a truthy `response` field
still yields exactly one fragment, in the order received.  The lines after
the malformed one are given as pairs of a line and the `response` value it
carries. -/
theorem stream_malformed_line_nonfatal (pj : List Char → Option JValue)
    (pre : List (List Char)) (bad : List Char)
    (goods : List (List Char × JValue))
    (hbad : pj bad = none)
    (hgoods : ∀ p ∈ goods, trimIsEmpty p.1 = false ∧
      ∃ data, pj p.1 = some data ∧ getField data "response" = .ok p.2 ∧
        truthy p.2 = true) :
    processLines pj (pre ++ bad :: goods.map Prod.fst) =
      processLines pj pre ++ goods.map Prod.snd := by
  rw [processLines_append]
  congr 1
  have hbadline := lineFragment_none_of_parse_error pj bad hbad
  simp only [processLines, hbadline]
  induction goods with
  | nil => rfl
  | cons g rest ih =>
      obtain ⟨htrim, data, hdata, hresp, htruthy⟩ := hgoods g (by simp)
      have hfrag : lineFragment pj g.1 = some g.2 := by
        unfold lineFragment
        simp [htrim, hdata, hresp, htruthy]
      simp only [List.map_cons, processLines, hfrag]
      rw [ih (fun p hp => hgoods p (by simp [hp]))]

/-- Witness for C7: with the parse function `abParse`, a malformed line
(the incomplete `\x7b"respon`) between two occurrences of the valid line
still lets the later valid line produce its fragment. -/
theorem stream_malformed_line_nonfatal_witness :
    processLines abParse ([abLine] ++ abPartialTail :: [(abLine, JValue.str "ab")].map Prod.fst) =
      processLines abParse [abLine] ++ [(abLine, JValue.str "ab")].map Prod.snd :=
  stream_malformed_line_nonfatal abParse [abLine] abPartialTail
    [(abLine, .str "ab")] rfl
    (by
      intro p hp
      simp only [List.mem_singleton] at hp
      subst hp
      exact ⟨by decide, .obj [("response", .str "ab")], rfl, rfl, rfl⟩)
